import Mathlib

/-!
Verification of the WebSocket client in `src/services/api.ts`
(`class WebSocketService`): the event-router methods `on` / `off` / `emit`,
and the connection-manager methods `connect` / `disconnect` / `send` /
`attemptReconnect` together with their asynchronous event handlers
(`onopen`, `onmessage`, `onclose`).

Modelling conventions:
* Callbacks are identified by reference identity; we model identity as `Nat`.
* The JS listeners object `{ [key: string]: Callback[] }` distinguishes an
  absent key from a key holding an empty array, so the table is
  `String → Option (List Callback)`.
* `emit` runs `Array.prototype.forEach` over the array object that
  `this.listeners[event]` referenced when `emit` started.  Per the
  ECMAScript semantics of `forEach`, the length is read once before the
  first callback runs, and at each index the element is read from the
  current state of that same array object.  `off` never mutates that
  object (it assigns a freshly `filter`ed array to the table slot), while
  `on` `push`es onto whatever array the table slot currently references.
  The dispatch model below mirrors exactly this: `DispatchState.iterArr`
  is the array object being iterated, and `DispatchState.aliased` records
  whether the table slot for the dispatched event still references it.
* Reentrant behaviour of callbacks is modelled by a function
  `beh : Callback → List WsOp` giving the `on`/`off` calls a callback
  performs synchronously when invoked.
-/

namespace BootstrapAI

/-- A callback, identified by its JS reference identity. -/
abbrev Callback := Nat

/-- The listeners table `{ [key: string]: ((data:any) => void)[] }`.
`none` models an absent key. -/
abbrev Listeners := String → Option (List Callback)

/-- The freshly constructed service has `listeners = {}`. -/
def emptyListeners : Listeners := fun _ => none

/-- `on(event, callback)` (api.ts lines 145-150): create the array if the key
is absent, then `push` the callback at the end. -/
def wsOn (event : String) (cb : Callback) (L : Listeners) : Listeners :=
  fun e =>
    if e = event then
      match L event with
      | none => some [cb]
      | some l => some (l ++ [cb])
    else L e

/-- `off(event, callback)` (api.ts lines 152-156): if the key is present,
assign to the slot a new array holding every entry not identical to
`callback`.  The previously referenced array object is not mutated. -/
def wsOff (event : String) (cb : Callback) (L : Listeners) : Listeners :=
  fun e =>
    if e = event then (L event).map (fun l => l.filter (fun c => c != cb))
    else L e

/-- A reentrant subscription call performed by a callback during dispatch. -/
inductive WsOp where
  | on (event : String) (cb : Callback)
  | off (event : String) (cb : Callback)
deriving DecidableEq

/-- `on` / `off` as invoked from outside a dispatch pass. -/
def applyCall : WsOp → Listeners → Listeners
  | .on e cb, L => wsOn e cb L
  | .off e cb, L => wsOff e cb L

/-- A sequence of external `on`/`off` calls applied in order. -/
def applyCalls (ops : List WsOp) (L : Listeners) : Listeners :=
  ops.foldl (fun L op => applyCall op L) L

/-- State of one `emit(ev, _)` dispatch pass.  `iterArr` is the array object
`forEach` iterates; `aliased` records whether `this.listeners[ev]` still
references that object (it stops doing so as soon as `off(ev, _)` assigns a
fresh filtered array to the slot). -/
structure DispatchState where
  iterArr : List Callback
  aliased : Bool
  table : Listeners

/-- Effect of one reentrant `on`/`off` call made while `emit ev` iterates.
`on(ev, cb)` `push`es onto the array the slot currently references, so it
grows `iterArr` exactly when the slot is still aliased to it; `off(ev, _)`
replaces the slot with a fresh array, breaking the alias and leaving
`iterArr` untouched.  Calls for other events never touch `iterArr`. -/
def applyDuring (ev : String) (s : DispatchState) (op : WsOp) : DispatchState :=
  match op with
  | .on e cb =>
      { iterArr := if e = ev ∧ s.aliased then s.iterArr ++ [cb] else s.iterArr
        aliased := s.aliased
        table := wsOn e cb s.table }
  | .off e cb =>
      { iterArr := s.iterArr
        aliased := if e = ev then false else s.aliased
        table := wsOff e cb s.table }

/-- All reentrant calls of one callback invocation, in order. -/
def applyAllDuring (ev : String) (s : DispatchState) (ops : List WsOp) : DispatchState :=
  ops.foldl (applyDuring ev) s

/-- The `forEach` loop of `emit` (api.ts line 160) with its length cached
before the first step: `n` is the number of remaining indices, `k` the
current index; the element is read from the current `iterArr` at `k`.
Returns the invoked callbacks in order and the final state. -/
def dispatchFrom (ev : String) (beh : Callback → List WsOp) :
    Nat → Nat → DispatchState → List Callback × DispatchState
  | 0, _, s => ([], s)
  | n + 1, k, s =>
      let cb := s.iterArr.getD k 0
      let r := dispatchFrom ev beh n (k + 1) (applyAllDuring ev s (beh cb))
      (cb :: r.1, r.2)

/-- `emit(event, data)` (api.ts lines 158-162): if the key is absent, do
nothing; otherwise `forEach` over the referenced array, passing `data` to
each callback.  Returns the invocation list (callback, data) and the
resulting listeners table. -/
def wsEmit {α : Type} (ev : String) (d : α) (L : Listeners)
    (beh : Callback → List WsOp) : List (Callback × α) × Listeners :=
  match L ev with
  | none => ([], L)
  | some arr =>
      let r := dispatchFrom ev beh arr.length 0 ⟨arr, true, L⟩
      (r.1.map (fun cb => (cb, d)), r.2.table)

/-- Spec-words definition (the refinement side of the subscription claim):
"`on` appends `callback` to the subscriber list for `eventName`"; "`off`
removes all list entries equal (by identity) to `callback`, for that
`eventName` only"; insertion order is notification order and duplicates are
kept. -/
def specStep : WsOp → (String → List Callback) → String → List Callback
  | .on ev cb, f => fun e => if e = ev then f e ++ [cb] else f e
  | .off ev cb, f => fun e => if e = ev then (f e).filter (fun c => c != cb) else f e

/-- Subscriber sequence after a sequence of `on`/`off` calls, read off the
spec's words (see `specStep`). -/
def specSubscribers (ops : List WsOp) : String → List Callback :=
  ops.foldl (fun f op => specStep op f) (fun _ => [])

/-! ## Connection manager (api.ts lines 83-169)

Whole-system model driven by a trace of external method calls and
asynchronous environment events (socket open/close, parsed inbound frames,
reconnect timers firing).  Transport handles created by `new WebSocket(...)`
are numbered consecutively; a handle is *live* from its creation until
either `close()` is called on it or its close event fires.  The emits
performed by the handlers use the event router above with inert callbacks
(the registered UI callbacks do not call back into the service). -/

/-- `maxReconnectAttempts = 5` (api.ts line 87). -/
def maxReconnectAttempts : Nat := 5

/-- `reconnectDelay = 1000` (api.ts line 88). -/
def reconnectDelay : Nat := 1000

/-- Whole-system state: the `WebSocketService` fields plus the environment
bookkeeping needed to observe handles and timers. -/
structure SysState where
  /-- `this.ws`: the current handle, if any. -/
  ws : Option Nat
  /-- `this.reconnectAttempts` (api.ts line 86). -/
  reconnectAttempts : Nat
  /-- `this.listeners` (api.ts line 85). -/
  listeners : Listeners
  /-- Next fresh id handed out by `new WebSocket(...)`. -/
  nextHandle : Nat
  /-- Handles created and not yet closed. -/
  liveHandles : List Nat
  /-- Delays of the reconnect timers scheduled by `setTimeout` and not yet
  fired, in scheduling order. -/
  pendingDelays : List Nat
  /-- Log of emit passes: event name and the callbacks invoked. -/
  emitLog : List (String × List Callback)
  /-- Frames written to the transport by `send`. -/
  sent : List Nat

/-- Inert reentrant behaviour: the registered callbacks perform no
`on`/`off` calls of their own. -/
def inertBeh : Callback → List WsOp := fun _ => []

/-- `this.emit(ev, ...)` as called from the service's own handlers,
recording the pass in the log. -/
def svcEmit (ev : String) (s : SysState) : SysState :=
  let r := wsEmit ev (0 : Nat) s.listeners inertBeh
  { s with listeners := r.2, emitLog := s.emitLog ++ [(ev, r.1.map Prod.fst)] }

/-- `attemptReconnect()` (api.ts lines 127-135): if
`reconnectAttempts < maxReconnectAttempts`, first increment the counter,
then `setTimeout(connect, reconnectDelay * reconnectAttempts)` — the delay
is computed from the already incremented counter.  Otherwise do nothing. -/
def attemptReconnect (s : SysState) : SysState :=
  if s.reconnectAttempts < maxReconnectAttempts then
    { s with reconnectAttempts := s.reconnectAttempts + 1
             pendingDelays := s.pendingDelays ++
               [reconnectDelay * (s.reconnectAttempts + 1)] }
  else s

/-- `connect()` (api.ts lines 90-125).  On constructor success
(`ok = true`): `this.ws = new WebSocket(wsUrl)` — a fresh live handle,
assigned without closing or releasing any previously held handle.  If the
constructor throws (`ok = false`), the `catch` block calls
`attemptReconnect()` and `this.ws` keeps its old value. -/
def connect (ok : Bool) (s : SysState) : SysState :=
  if ok then
    { s with ws := some s.nextHandle
             nextHandle := s.nextHandle + 1
             liveHandles := s.liveHandles ++ [s.nextHandle] }
  else attemptReconnect s

/-- `disconnect()` (api.ts lines 137-143): if a handle is held, `close()` it
(it stops being live; its close event may still fire later) and set
`this.ws = null`; then `this.listeners = {}`.  The pending reconnect timers
are NOT cancelled. -/
def disconnect (s : SysState) : SysState :=
  let s1 :=
    match s.ws with
    | some h => { s with liveHandles := s.liveHandles.filter (fun x => x != h)
                         ws := none }
    | none => s
  { s1 with listeners := emptyListeners }

/-- The `onopen` handler body (api.ts lines 96-100): reset
`reconnectAttempts` to 0 and emit `connected`.  The handler never checks
which socket fired. -/
def onopenBody (s : SysState) : SysState :=
  svcEmit "connected" { s with reconnectAttempts := 0 }

/-- The `onclose` handler body (api.ts lines 111-115): emit `disconnected`
and unconditionally call `attemptReconnect()`.  The body never consults
`this.ws`, so it runs identically for a stale socket's close event. -/
def oncloseBody (s : SysState) : SysState :=
  attemptReconnect (svcEmit "disconnected" s)

/-- `send(message)` (api.ts lines 164-168): write the serialized message
only if a handle is held and its `readyState` is `OPEN` (the latter is an
environment fact, passed in as `isOpen`); otherwise do nothing at all. -/
def svcSend (msg : Nat) (isOpen : Bool) (s : SysState) : SysState :=
  match s.ws with
  | some _ => if isOpen then { s with sent := s.sent ++ [msg] } else s
  | none => s

/-- External calls and asynchronous environment events driving the system. -/
inductive SysEv where
  /-- An external `connect()` call; `ok` tells whether the constructor
  succeeds. -/
  | callConnect (ok : Bool)
  /-- An external `disconnect()` call. -/
  | callDisconnect
  /-- An external `on(ev, cb)` call. -/
  | callOn (ev : String) (cb : Callback)
  /-- An external `off(ev, cb)` call. -/
  | callOff (ev : String) (cb : Callback)
  /-- An external `send(msg)` call; `isOpen` is the current socket's
  `readyState === OPEN`. -/
  | callSend (msg : Nat) (isOpen : Bool)
  /-- A socket's open event fires and runs the installed `onopen` body. -/
  | openEv
  /-- Socket `h`'s close event fires: `h` stops being live and the
  installed `onclose` body runs (it does not look at `h`). -/
  | closeEv (h : Nat)
  /-- An inbound frame parsed successfully as `{type := t, data := _}`
  (api.ts lines 102-109); a parse failure is a pure no-op and needs no
  event. -/
  | msgEv (t : String)
  /-- The earliest pending reconnect timer fires and its callback calls
  `connect()`; `ok` tells whether the constructor succeeds. -/
  | timerFire (ok : Bool)
deriving DecidableEq

/-- One transition of the whole system. -/
def step (s : SysState) (e : SysEv) : SysState :=
  match e with
  | .callConnect ok => connect ok s
  | .callDisconnect => disconnect s
  | .callOn ev cb => { s with listeners := wsOn ev cb s.listeners }
  | .callOff ev cb => { s with listeners := wsOff ev cb s.listeners }
  | .callSend msg isOpen => svcSend msg isOpen s
  | .openEv => onopenBody s
  | .closeEv h =>
      oncloseBody { s with liveHandles := s.liveHandles.filter (fun x => x != h) }
  | .msgEv t => svcEmit t s
  | .timerFire ok =>
      match s.pendingDelays with
      | [] => s
      | _ :: rest => connect ok { s with pendingDelays := rest }

/-- Run a trace of events from a state. -/
def run (s : SysState) (evs : List SysEv) : SysState :=
  evs.foldl step s

/-- The freshly constructed `webSocketService` (api.ts lines 84-88, 171). -/
def initState : SysState :=
  { ws := none
    reconnectAttempts := 0
    listeners := emptyListeners
    nextHandle := 0
    liveHandles := []
    pendingDelays := []
    emitLog := []
    sent := [] }

/-! ## Dispatch lemmas -/

/-- A reentrant call can only extend the iterated array object (by a `push`)
or leave it alone; no call ever shrinks or rewrites its existing entries. -/
lemma applyDuring_iterArr_ext (ev : String) (s : DispatchState) (op : WsOp) :
    ∃ t, (applyDuring ev s op).iterArr = s.iterArr ++ t := by
  rcases op with ⟨e, cb⟩ | ⟨e, cb⟩
  · dsimp only [applyDuring]
    split
    · exact ⟨[cb], rfl⟩
    · exact ⟨[], (List.append_nil _).symm⟩
  · exact ⟨[], (List.append_nil _).symm⟩

/-- All the reentrant calls of one callback invocation only extend the
iterated array object. -/
lemma applyAllDuring_iterArr_ext (ev : String) (ops : List WsOp) (s : DispatchState) :
    ∃ t, (applyAllDuring ev s ops).iterArr = s.iterArr ++ t := by
  induction ops generalizing s with
  | nil => exact ⟨[], (List.append_nil _).symm⟩
  | cons op rest ih =>
      obtain ⟨t1, h1⟩ := applyDuring_iterArr_ext ev s op
      obtain ⟨t2, h2⟩ := ih (applyDuring ev s op)
      refine ⟨t1 ++ t2, ?_⟩
      show (applyAllDuring ev (applyDuring ev s op) rest).iterArr = _
      rw [h2, h1, List.append_assoc]

/-- The `forEach` loop, started on an array whose first `arr.length` entries
are `arr`, invokes exactly the elements of `arr` from index `k` on, in
order, whatever the callbacks do reentrantly. -/
lemma dispatchFrom_fst (ev : String) (beh : Callback → List WsOp) :
    ∀ (n k : Nat) (s : DispatchState) (arr t : List Callback),
      s.iterArr = arr ++ t → k + n = arr.length →
      (dispatchFrom ev beh n k s).1 = arr.drop k := by
  intro n
  induction n with
  | zero =>
      intro k s arr t _ hk
      exact (List.drop_eq_nil_of_le (by omega)).symm
  | succ n ih =>
      intro k s arr t hiter hk
      have hklt : k < arr.length := by omega
      have hcb : s.iterArr.getD k 0 = arr[k] := by
        rw [hiter, List.getD_append _ _ _ _ hklt, List.getD_eq_getElem _ _ hklt]
      obtain ⟨t2, h2⟩ :=
        applyAllDuring_iterArr_ext ev (beh (s.iterArr.getD k 0)) s
      have hrest :=
        ih (k + 1) (applyAllDuring ev s (beh (s.iterArr.getD k 0))) arr (t ++ t2)
          (by rw [h2, hiter, List.append_assoc]) (by omega)
      simp only [dispatchFrom]
      rw [hrest, hcb]
      exact (List.drop_eq_getElem_cons hklt).symm

/-- `emit` invokes exactly the callbacks the table held for the event when
the pass started, in order, passing the data to each. -/
lemma wsEmit_fst {α : Type} (ev : String) (d : α) (L : Listeners)
    (beh : Callback → List WsOp) :
    (wsEmit ev d L beh).1 = ((L ev).getD []).map (fun cb => (cb, d)) := by
  unfold wsEmit
  cases h : L ev with
  | none => rfl
  | some arr =>
      have hd := dispatchFrom_fst ev beh arr.length 0 ⟨arr, true, L⟩ arr []
        (List.append_nil arr).symm (Nat.zero_add _)
      simp only [hd, List.drop_zero, Option.getD_some]

/-- Refinement of the listeners table by the spec-level subscriber map. -/
lemma applyCall_getD (op : WsOp) (L : Listeners) (f : String → List Callback)
    (h : ∀ e, (L e).getD [] = f e) (e : String) :
    ((applyCall op L) e).getD [] = specStep op f e := by
  rcases op with ⟨ev, cb⟩ | ⟨ev, cb⟩
  · simp only [applyCall, specStep, wsOn]
    by_cases he : e = ev
    · subst he
      rw [if_pos rfl, if_pos rfl]
      cases hL : L e with
      | none =>
          have hf := h e
          rw [hL] at hf
          simp only [Option.getD_none] at hf
          simp [← hf]
      | some l =>
          have hf := h e
          rw [hL] at hf
          simp only [Option.getD_some] at hf
          simp [← hf]
    · rw [if_neg he, if_neg he]
      exact h e
  · simp only [applyCall, specStep, wsOff]
    by_cases he : e = ev
    · subst he
      rw [if_pos rfl, if_pos rfl]
      cases hL : L e with
      | none =>
          have hf := h e
          rw [hL] at hf
          simp only [Option.getD_none] at hf
          simp [← hf]
      | some l =>
          have hf := h e
          rw [hL] at hf
          simp only [Option.getD_some] at hf
          simp [← hf]
    · rw [if_neg he, if_neg he]
      exact h e

/-- The table after a sequence of external `on`/`off` calls holds, for each
event, exactly the spec-level subscriber sequence. -/
lemma applyCalls_getD :
    ∀ (ops : List WsOp) (L : Listeners) (f : String → List Callback),
      (∀ e, (L e).getD [] = f e) →
      ∀ e, ((applyCalls ops L) e).getD []
            = (ops.foldl (fun f op => specStep op f) f) e := by
  intro ops
  induction ops with
  | nil => intro L f h e; exact h e
  | cons op rest ih =>
      intro L f h e
      exact ih (applyCall op L) (specStep op f) (applyCall_getD op L f h) e

/-! ## Claim C1 -/

/-- C1: for every sequence of `on`/`off` calls, `emit(e, d)` invokes exactly
the callbacks currently subscribed to `e` — the spec-level subscriber
sequence, which keeps duplicates and insertion order — each exactly once per
registration, in subscription order, passing `d` to each.  A callback
subscribed twice appears twice in `specSubscribers`, hence is invoked twice. -/
theorem c1_emit_exact_subscribers (ops : List WsOp) (e : String) {α : Type} (d : α) :
    (wsEmit e d (applyCalls ops emptyListeners) inertBeh).1
      = (specSubscribers ops e).map (fun cb => (cb, d)) := by
  rw [wsEmit_fst]
  rw [applyCalls_getD ops emptyListeners (fun _ => []) (fun _ => rfl) e]
  rfl

/-! ## Claim C2 -/

/-- C2: whatever `on`/`off` calls the invoked callbacks make during an
`emit(ev, d)` pass — including a callback unsubscribing itself — the pass is
total (no crash) and invokes exactly the callbacks subscribed to `ev` when
the pass started, in order, passing `d` to each: removals mid-dispatch never
affect the current pass (the `filter` in `off` replaces the array object
instead of mutating the one `forEach` iterates). -/
theorem c2_snapshot_dispatch (L : Listeners) (beh : Callback → List WsOp)
    (ev : String) {α : Type} (d : α) :
    (wsEmit ev d L beh).1 = ((L ev).getD []).map (fun cb => (cb, d)) :=
  wsEmit_fst ev d L beh

/-! ## Table evolution during a dispatch pass -/

/-- On the table component, a reentrant call acts exactly like an external
one. -/
lemma applyDuring_table (ev : String) (s : DispatchState) (op : WsOp) :
    (applyDuring ev s op).table = applyCall op s.table := by
  rcases op with ⟨e, cb⟩ | ⟨e, cb⟩ <;> rfl

/-- On the table component, the reentrant calls of one invocation compose
like external calls. -/
lemma applyAllDuring_table (ev : String) (ops : List WsOp) (s : DispatchState) :
    (applyAllDuring ev s ops).table = applyCalls ops s.table := by
  induction ops generalizing s with
  | nil => rfl
  | cons op rest ih =>
      show (applyAllDuring ev (applyDuring ev s op) rest).table = _
      rw [ih, applyDuring_table]
      rfl

/-- `applyCalls` splits over list append. -/
lemma applyCalls_append (l1 l2 : List WsOp) (L : Listeners) :
    applyCalls (l1 ++ l2) L = applyCalls l2 (applyCalls l1 L) :=
  List.foldl_append ..

/-- The table after a dispatch pass is the starting table with all the
reentrant calls of the invoked callbacks applied in invocation order. -/
lemma dispatchFrom_table (ev : String) (beh : Callback → List WsOp) :
    ∀ (n k : Nat) (s : DispatchState),
      (dispatchFrom ev beh n k s).2.table
        = applyCalls (((dispatchFrom ev beh n k s).1).map beh).flatten s.table := by
  intro n
  induction n with
  | zero => intro k s; rfl
  | succ n ih =>
      intro k s
      simp only [dispatchFrom, List.map_cons, List.flatten_cons]
      rw [ih, applyAllDuring_table, applyCalls_append]

/-- A freshly pushed callback is in the table slot it was pushed to. -/
lemma mem_wsOn_self (ev : String) (cb : Callback) (L : Listeners) :
    cb ∈ ((wsOn ev cb L) ev).getD [] := by
  simp only [wsOn, if_pos rfl]
  cases L ev <;> simp

/-- `on` never removes an existing table entry. -/
lemma mem_wsOn_mono (ev' : String) (c : Callback) (L : Listeners) (e : String)
    (x : Callback) (hx : x ∈ (L e).getD []) :
    x ∈ ((wsOn ev' c L) e).getD [] := by
  simp only [wsOn]
  by_cases he : e = ev'
  · subst he
    rw [if_pos rfl]
    cases hL : L e with
    | none => rw [hL] at hx; simp at hx
    | some l =>
        rw [hL] at hx
        simp only [Option.getD_some] at hx ⊢
        exact List.mem_append_left _ hx
  · rw [if_neg he]
    exact hx

/-- Applying a list of calls that are all `on ev cb2` puts `cb2` into the
slot for `ev` as soon as the list is nonempty, and keeps it there. -/
lemma mem_applyCalls_of_all_on (ev : String) (cb2 : Callback) :
    ∀ (ops : List WsOp) (L : Listeners),
      (∀ o ∈ ops, o = WsOp.on ev cb2) →
      (WsOp.on ev cb2 ∈ ops ∨ cb2 ∈ (L ev).getD []) →
      cb2 ∈ ((applyCalls ops L) ev).getD [] := by
  intro ops
  induction ops with
  | nil =>
      intro L _ h
      rcases h with h | h
      · simp at h
      · exact h
  | cons o rest ih =>
      intro L hall h
      have ho : o = WsOp.on ev cb2 := hall o (List.mem_cons_self _ _)
      subst ho
      show cb2 ∈ ((applyCalls rest (wsOn ev cb2 L)) ev).getD []
      apply ih
      · intro o' ho'
        exact hall o' (List.mem_cons_of_mem _ ho')
      · right
        exact mem_wsOn_self ev cb2 L

/-! ## Claim C8 -/

/-- C8: `disconnect()` clears the entire subscription table, so any `emit`
performed afterwards (before any new `on` call) — whether a direct
`wsEmit` or the service-level pass triggered by an inbound frame — finds
zero subscribers and invokes no callback. -/
theorem c8_disconnect_clears_subscriptions (s : SysState) (ev : String) {α : Type}
    (d : α) (beh : Callback → List WsOp) :
    (disconnect s).listeners = emptyListeners ∧
    (wsEmit ev d (disconnect s).listeners beh).1 = [] ∧
    (step (disconnect s) (.msgEv ev)).emitLog
      = (disconnect s).emitLog ++ [(ev, [])] :=
  ⟨rfl, rfl, rfl⟩

/-! ## Claim C10 -/

/-- C10 counterexample: one callback (id 1) is subscribed to event `x`; when
invoked it calls `on("x", 2)`.  The claim asserts callback 2 is then invoked
in the same dispatch pass; in fact the pass invokes only callback 1 — the
`forEach` range is fixed before the first call — although callback 2 was
indeed appended to the live array (the final table for `x` is `[1, 2]`). -/
theorem c10_counterexample :
    (wsEmit "x" (0 : Nat) (wsOn "x" 1 emptyListeners)
        (fun c => if c = 1 then [WsOp.on "x" 2] else [])).1 = [(1, 0)] ∧
    (2, 0) ∉ (wsEmit "x" (0 : Nat) (wsOn "x" 1 emptyListeners)
        (fun c => if c = 1 then [WsOp.on "x" 2] else [])).1 ∧
    ((wsEmit "x" (0 : Nat) (wsOn "x" 1 emptyListeners)
        (fun c => if c = 1 then [WsOp.on "x" 2] else [])).2 "x").getD [] = [1, 2] :=
  ⟨rfl, by decide, rfl⟩

/-- C10 amended: if a callback `cb` subscribed to `e` calls `on(e, cb2)`
when invoked during an `emit(e, d)` pass, then `cb2` is appended to the
subscriber list for `e` (it is in the table once the pass ends, so later
emits reach it), but the current pass still invokes exactly the callbacks
subscribed when the pass started — the addition is NOT dispatched in the
same pass, because `forEach` fixes its range before the first call. -/
theorem c10_amended_additions_deferred (tbl : Listeners) (e : String)
    (d cb cb2 : Nat) (hmem : cb ∈ (tbl e).getD []) :
    (wsEmit e d tbl (fun c => if c = cb then [WsOp.on e cb2] else [])).1
        = ((tbl e).getD []).map (fun c => (c, d)) ∧
    cb2 ∈ ((wsEmit e d tbl
        (fun c => if c = cb then [WsOp.on e cb2] else [])).2 e).getD [] := by
  refine ⟨wsEmit_fst .., ?_⟩
  cases hL : tbl e with
  | none => rw [hL] at hmem; simp at hmem
  | some arr =>
      rw [hL] at hmem
      simp only [Option.getD_some] at hmem
      have hw : (wsEmit e d tbl (fun c => if c = cb then [WsOp.on e cb2] else [])).2
          = (dispatchFrom e (fun c => if c = cb then [WsOp.on e cb2] else [])
              arr.length 0 ⟨arr, true, tbl⟩).2.table := by
        simp only [wsEmit, hL]
      rw [hw, dispatchFrom_table]
      have hfst : (dispatchFrom e (fun c => if c = cb then [WsOp.on e cb2] else [])
          arr.length 0 ⟨arr, true, tbl⟩).1 = arr := by
        have := dispatchFrom_fst e (fun c => if c = cb then [WsOp.on e cb2] else [])
          arr.length 0 ⟨arr, true, tbl⟩ arr [] (List.append_nil arr).symm
          (Nat.zero_add _)
        simpa using this
      rw [hfst]
      apply mem_applyCalls_of_all_on
      · intro o ho
        rw [List.mem_flatten] at ho
        obtain ⟨l, hl, hol⟩ := ho
        rw [List.mem_map] at hl
        obtain ⟨c, _, rfl⟩ := hl
        by_cases hc : c = cb
        · simpa [hc] using hol
        · simp [hc] at hol
      · left
        rw [List.mem_flatten]
        refine ⟨[WsOp.on e cb2], ?_, by simp⟩
        rw [List.mem_map]
        exact ⟨cb, hmem, by simp⟩

/-- Witness for C10's amended theorem at a concrete input. -/
theorem c10_amended_witness :
    1 ∈ ((wsOn "x" 1 emptyListeners) "x").getD [] ∧
    ((wsEmit "x" (0 : Nat) (wsOn "x" 1 emptyListeners)
        (fun c => if c = 1 then [WsOp.on "x" 2] else [])).1
      = (((wsOn "x" 1 emptyListeners) "x").getD []).map (fun c => (c, 0)) ∧
     2 ∈ ((wsEmit "x" (0 : Nat) (wsOn "x" 1 emptyListeners)
        (fun c => if c = 1 then [WsOp.on "x" 2] else [])).2 "x").getD []) :=
  ⟨by decide,
    c10_amended_additions_deferred (wsOn "x" 1 emptyListeners) "x" 0 1 2 (by decide)⟩

/-! ## Connection-manager lemmas -/

/-- Below the cap, `attemptReconnect` first increments the counter and then
schedules a timer whose delay is computed from the incremented counter. -/
lemma attemptReconnect_lt (s : SysState)
    (hlt : s.reconnectAttempts < maxReconnectAttempts) :
    attemptReconnect s
      = { s with reconnectAttempts := s.reconnectAttempts + 1
                 pendingDelays := s.pendingDelays
                   ++ [reconnectDelay * (s.reconnectAttempts + 1)] } := by
  simp [attemptReconnect, hlt]

/-- At or above the cap, `attemptReconnect` does nothing. -/
lemma attemptReconnect_ge (s : SysState)
    (hge : maxReconnectAttempts ≤ s.reconnectAttempts) :
    attemptReconnect s = s := by
  simp [attemptReconnect, Nat.not_lt.mpr hge]

lemma attemptReconnect_nextHandle (s : SysState) :
    (attemptReconnect s).nextHandle = s.nextHandle := by
  unfold attemptReconnect
  split <;> rfl

lemma attemptReconnect_attempts_le (s : SysState)
    (h : s.reconnectAttempts ≤ maxReconnectAttempts) :
    (attemptReconnect s).reconnectAttempts ≤ maxReconnectAttempts := by
  unfold attemptReconnect
  split
  · next hlt => exact hlt
  · exact h

lemma disconnect_reconnectAttempts (s : SysState) :
    (disconnect s).reconnectAttempts = s.reconnectAttempts := by
  unfold disconnect
  cases s.ws <;> rfl

lemma disconnect_pendingDelays (s : SysState) :
    (disconnect s).pendingDelays = s.pendingDelays := by
  unfold disconnect
  cases s.ws <;> rfl

lemma disconnect_nextHandle (s : SysState) :
    (disconnect s).nextHandle = s.nextHandle := by
  unfold disconnect
  cases s.ws <;> rfl

lemma svcSend_reconnectAttempts (m : Nat) (o : Bool) (s : SysState) :
    (svcSend m o s).reconnectAttempts = s.reconnectAttempts := by
  unfold svcSend
  cases s.ws
  · rfl
  · cases o <;> rfl

lemma svcSend_pendingDelays (m : Nat) (o : Bool) (s : SysState) :
    (svcSend m o s).pendingDelays = s.pendingDelays := by
  unfold svcSend
  cases s.ws
  · rfl
  · cases o <;> rfl

lemma svcSend_nextHandle (m : Nat) (o : Bool) (s : SysState) :
    (svcSend m o s).nextHandle = s.nextHandle := by
  unfold svcSend
  cases s.ws
  · rfl
  · cases o <;> rfl

/-- The `emit` pass recorded by the service names exactly the callbacks the
table held for the event. -/
lemma svcEmit_reconnectAttempts (ev : String) (s : SysState) :
    (svcEmit ev s).reconnectAttempts = s.reconnectAttempts := rfl

lemma svcEmit_pendingDelays (ev : String) (s : SysState) :
    (svcEmit ev s).pendingDelays = s.pendingDelays := rfl

lemma svcEmit_emitLog (ev : String) (s : SysState) :
    (svcEmit ev s).emitLog = s.emitLog ++ [(ev, (s.listeners ev).getD [])] := by
  simp only [svcEmit]
  rw [wsEmit_fst]
  simp [List.map_map, Function.comp_def]

/-- Effect of a close event on the counter, below the cap. -/
lemma step_closeEv_attempts_lt (s : SysState) (h : Nat)
    (hlt : s.reconnectAttempts < maxReconnectAttempts) :
    (step s (.closeEv h)).reconnectAttempts = s.reconnectAttempts + 1 := by
  show (attemptReconnect (svcEmit "disconnected" _)).reconnectAttempts = _
  unfold attemptReconnect
  split
  · rfl
  · next hcond => exact absurd hlt hcond

/-- Effect of a close event on the timer queue, below the cap. -/
lemma step_closeEv_pendingDelays_lt (s : SysState) (h : Nat)
    (hlt : s.reconnectAttempts < maxReconnectAttempts) :
    (step s (.closeEv h)).pendingDelays
      = s.pendingDelays ++ [reconnectDelay * (s.reconnectAttempts + 1)] := by
  show (attemptReconnect (svcEmit "disconnected" _)).pendingDelays = _
  unfold attemptReconnect
  split
  · rfl
  · next hcond => exact absurd hlt hcond

/-- A close event at the cap leaves counter and timer queue unchanged. -/
lemma step_closeEv_at_cap (s : SysState) (h : Nat)
    (hge : maxReconnectAttempts ≤ s.reconnectAttempts) :
    (step s (.closeEv h)).reconnectAttempts = s.reconnectAttempts ∧
    (step s (.closeEv h)).pendingDelays = s.pendingDelays := by
  show (attemptReconnect (svcEmit "disconnected" _)).reconnectAttempts = _ ∧
    (attemptReconnect (svcEmit "disconnected" _)).pendingDelays = _
  unfold attemptReconnect
  split
  · next hcond =>
      exact absurd (show s.reconnectAttempts < maxReconnectAttempts from hcond)
        (Nat.not_lt.mpr hge)
  · exact ⟨rfl, rfl⟩

lemma run_append (s : SysState) (l1 l2 : List SysEv) :
    run s (l1 ++ l2) = run (run s l1) l2 :=
  List.foldl_append ..

/-- No single step can push the counter past the cap. -/
lemma step_attempts_le (s : SysState) (e : SysEv)
    (h : s.reconnectAttempts ≤ maxReconnectAttempts) :
    (step s e).reconnectAttempts ≤ maxReconnectAttempts := by
  cases e with
  | callConnect ok =>
      cases ok
      · exact attemptReconnect_attempts_le s h
      · exact h
  | callDisconnect => rw [show (step s SysEv.callDisconnect) = disconnect s from rfl,
      disconnect_reconnectAttempts]; exact h
  | callOn ev cb => exact h
  | callOff ev cb => exact h
  | callSend m o => rw [show (step s (SysEv.callSend m o)) = svcSend m o s from rfl,
      svcSend_reconnectAttempts]; exact h
  | openEv => exact Nat.zero_le _
  | closeEv hh => exact attemptReconnect_attempts_le _ h
  | msgEv t => exact h
  | timerFire ok =>
      show (match s.pendingDelays with
            | [] => s
            | _ :: rest => connect ok { s with pendingDelays := rest }).reconnectAttempts
          ≤ maxReconnectAttempts
      cases s.pendingDelays with
      | nil => exact h
      | cons d rest =>
          cases ok
          · exact attemptReconnect_attempts_le _ h
          · exact h

/-- The counter never exceeds the cap along any trace. -/
lemma run_attempts_le (evs : List SysEv) :
    ∀ s : SysState, s.reconnectAttempts ≤ maxReconnectAttempts →
      (run s evs).reconnectAttempts ≤ maxReconnectAttempts := by
  induction evs with
  | nil => intro s h; exact h
  | cons e rest ih =>
      intro s h
      exact ih (step s e) (step_attempts_le s e h)

/-- At the cap with no pending timer, any trace without external `connect`
calls and without open events schedules nothing and opens no socket. -/
lemma run_stopped (evs : List SysEv) :
    ∀ s : SysState, s.reconnectAttempts = maxReconnectAttempts →
      s.pendingDelays = [] →
      (∀ e ∈ evs, (∀ ok, e ≠ SysEv.callConnect ok) ∧ e ≠ SysEv.openEv) →
      (run s evs).reconnectAttempts = maxReconnectAttempts ∧
      (run s evs).pendingDelays = [] ∧
      (run s evs).nextHandle = s.nextHandle := by
  induction evs with
  | nil => intro s h1 h2 _; exact ⟨h1, h2, rfl⟩
  | cons e rest ih =>
      intro s h1 h2 hall
      have he := hall e (List.mem_cons_self _ _)
      have hstep : (step s e).reconnectAttempts = maxReconnectAttempts ∧
          (step s e).pendingDelays = [] ∧ (step s e).nextHandle = s.nextHandle := by
        cases e with
        | callConnect ok => exact absurd rfl (he.1 ok)
        | openEv => exact absurd rfl he.2
        | callDisconnect =>
            exact ⟨(disconnect_reconnectAttempts s).trans h1,
              (disconnect_pendingDelays s).trans h2, disconnect_nextHandle s⟩
        | callOn ev cb => exact ⟨h1, h2, rfl⟩
        | callOff ev cb => exact ⟨h1, h2, rfl⟩
        | callSend m o =>
            exact ⟨(svcSend_reconnectAttempts m o s).trans h1,
              (svcSend_pendingDelays m o s).trans h2, svcSend_nextHandle m o s⟩
        | msgEv t => exact ⟨h1, h2, rfl⟩
        | closeEv hh =>
            have hcap := step_closeEv_at_cap s hh (le_of_eq h1.symm)
            refine ⟨hcap.1.trans h1, hcap.2.trans h2, ?_⟩
            exact (attemptReconnect_nextHandle _)
        | timerFire ok =>
            have hred : step s (SysEv.timerFire ok) = s := by
              show (match s.pendingDelays with
                    | [] => s
                    | _ :: rest => connect ok { s with pendingDelays := rest }) = s
              rw [h2]
            rw [hred]
            exact ⟨h1, h2, rfl⟩
      obtain ⟨a1, a2, a3⟩ := hstep
      have hr := ih (step s e) a1 a2 (fun e' he' => hall e' (List.mem_cons_of_mem _ he'))
      exact ⟨hr.1, hr.2.1, hr.2.2.trans a3⟩

/-! ## Claim C3 -/

/-- C3 counterexample: connect, then `disconnect()`, then the old handle's
asynchronous close event.  The claim says no reconnect is ever initiated
after `disconnect()`; in fact the `onclose` handler (which never consults
`this.ws`) calls `attemptReconnect`, which schedules a 1000-delay timer and
bumps the counter to 1, and when that timer fires `connect()` opens a brand
new socket (handle 1). -/
theorem c3_counterexample :
    (run initState [SysEv.callConnect true, SysEv.callDisconnect,
        SysEv.closeEv 0]).pendingDelays = [1000] ∧
    (run initState [SysEv.callConnect true, SysEv.callDisconnect,
        SysEv.closeEv 0]).reconnectAttempts = 1 ∧
    (run initState [SysEv.callConnect true, SysEv.callDisconnect,
        SysEv.closeEv 0, SysEv.timerFire true]).ws = some 1 :=
  ⟨rfl, rfl, rfl⟩

/-- C3 amended: `disconnect()` does NOT prevent reconnection.  The
`onclose` handler never compares the event's socket against `this.ws`
(there is no such guard in the code), so when the old handle's close event
fires after `disconnect()`, `attemptReconnect` still runs: whenever the
reconnect counter is below the cap it schedules a reconnect timer with
delay `reconnectDelay * (attempts + 1)`, and when that timer fires,
`connect()` opens a new socket. -/
theorem c3_amended_close_after_disconnect_reconnects (s : SysState) (h : Nat)
    (hlt : s.reconnectAttempts < maxReconnectAttempts)
    (hpd : s.pendingDelays = []) :
    (step (disconnect s) (.closeEv h)).pendingDelays
        = [reconnectDelay * (s.reconnectAttempts + 1)] ∧
    (run (disconnect s) [SysEv.closeEv h, SysEv.timerFire true]).ws
        = some s.nextHandle ∧
    (run (disconnect s) [SysEv.closeEv h, SysEv.timerFire true]).nextHandle
        = s.nextHandle + 1 := by
  have hda := disconnect_reconnectAttempts s
  have hlt2 : (disconnect s).reconnectAttempts < maxReconnectAttempts := by
    rw [hda]; exact hlt
  have h1 : (step (disconnect s) (.closeEv h)).pendingDelays
      = [reconnectDelay * (s.reconnectAttempts + 1)] := by
    rw [step_closeEv_pendingDelays_lt _ _ hlt2, disconnect_pendingDelays, hpd,
      hda, List.nil_append]
  refine ⟨h1, ?_, ?_⟩
  · show (step (step (disconnect s) (.closeEv h)) (SysEv.timerFire true)).ws
        = some s.nextHandle
    have hred : step (step (disconnect s) (.closeEv h)) (SysEv.timerFire true)
        = connect true { step (disconnect s) (.closeEv h) with pendingDelays := [] } := by
      show (match (step (disconnect s) (.closeEv h)).pendingDelays with
            | [] => step (disconnect s) (.closeEv h)
            | _ :: rest =>
                connect true { step (disconnect s) (.closeEv h) with pendingDelays := rest })
          = _
      rw [h1]
    rw [hred]
    show some (step (disconnect s) (.closeEv h)).nextHandle = some s.nextHandle
    congr 1
    show (attemptReconnect (svcEmit "disconnected" _)).nextHandle = _
    rw [attemptReconnect_nextHandle]
    exact disconnect_nextHandle s
  · show (step (step (disconnect s) (.closeEv h)) (SysEv.timerFire true)).nextHandle
        = s.nextHandle + 1
    have hred : step (step (disconnect s) (.closeEv h)) (SysEv.timerFire true)
        = connect true { step (disconnect s) (.closeEv h) with pendingDelays := [] } := by
      show (match (step (disconnect s) (.closeEv h)).pendingDelays with
            | [] => step (disconnect s) (.closeEv h)
            | _ :: rest =>
                connect true { step (disconnect s) (.closeEv h) with pendingDelays := rest })
          = _
      rw [h1]
    rw [hred]
    show (step (disconnect s) (.closeEv h)).nextHandle + 1 = s.nextHandle + 1
    congr 1
    show (attemptReconnect (svcEmit "disconnected" _)).nextHandle = _
    rw [attemptReconnect_nextHandle]
    exact disconnect_nextHandle s

/-- Witness for C3's amended theorem at a concrete state (one successful
connect, counter 0, no pending timer). -/
theorem c3_amended_witness :
    (run initState [SysEv.callConnect true]).reconnectAttempts
        < maxReconnectAttempts ∧
    (step (disconnect (run initState [SysEv.callConnect true])) (.closeEv 0)).pendingDelays
        = [reconnectDelay
            * ((run initState [SysEv.callConnect true]).reconnectAttempts + 1)] ∧
    (run (disconnect (run initState [SysEv.callConnect true]))
        [SysEv.closeEv 0, SysEv.timerFire true]).ws
      = some (run initState [SysEv.callConnect true]).nextHandle :=
  ⟨by decide,
    (c3_amended_close_after_disconnect_reconnects
      (run initState [SysEv.callConnect true]) 0 (by decide) rfl).1,
    (c3_amended_close_after_disconnect_reconnects
      (run initState [SysEv.callConnect true]) 0 (by decide) rfl).2.1⟩

/-! ## Claim C4 -/

/-- C4: the reconnect-attempts counter never exceeds
`maxReconnectAttempts = 5` along any trace from the initial state; after 5
consecutive close events with no intervening open, a 6th close schedules no
new reconnect (only the 5 timers of the first 5 closes ever exist); at the
cap, a close event changes neither the counter nor the timer queue; and
from a capped state with no pending timer, any trace free of external
`connect()` calls and of open events schedules nothing and opens no socket
— reconnection stays permanently stopped. -/
theorem c4_reconnect_bounded :
    (∀ evs, (run initState evs).reconnectAttempts ≤ maxReconnectAttempts) ∧
    ((run initState (List.replicate 6 (SysEv.closeEv 0))).pendingDelays
        = [1000, 2000, 3000, 4000, 5000] ∧
      (run initState (List.replicate 6 (SysEv.closeEv 0))).reconnectAttempts
        = maxReconnectAttempts) ∧
    (∀ (s : SysState) (h : Nat), s.reconnectAttempts = maxReconnectAttempts →
        (step s (.closeEv h)).pendingDelays = s.pendingDelays ∧
        (step s (.closeEv h)).reconnectAttempts = maxReconnectAttempts) ∧
    (∀ (s : SysState) (evs : List SysEv),
        s.reconnectAttempts = maxReconnectAttempts → s.pendingDelays = [] →
        (∀ e ∈ evs, (∀ ok, e ≠ SysEv.callConnect ok) ∧ e ≠ SysEv.openEv) →
        (run s evs).pendingDelays = [] ∧ (run s evs).nextHandle = s.nextHandle) := by
  refine ⟨fun evs => run_attempts_le evs initState (by decide), ⟨rfl, rfl⟩, ?_, ?_⟩
  · intro s h hcap
    have hc := step_closeEv_at_cap s h (le_of_eq hcap.symm)
    exact ⟨hc.2, hc.1.trans hcap⟩
  · intro s evs h1 h2 hall
    have hr := run_stopped evs s h1 h2 hall
    exact ⟨hr.2.1, hr.2.2⟩

/-- Witness for C4 at concrete inputs. -/
theorem c4_witness :
    (run initState [SysEv.closeEv 0]).reconnectAttempts ≤ maxReconnectAttempts ∧
    ((step { initState with reconnectAttempts := 5 } (.closeEv 0)).pendingDelays
        = ({ initState with reconnectAttempts := 5 } : SysState).pendingDelays ∧
      (step { initState with reconnectAttempts := 5 } (.closeEv 0)).reconnectAttempts
        = maxReconnectAttempts) ∧
    ((run { initState with reconnectAttempts := 5 } [SysEv.closeEv 1]).pendingDelays = [] ∧
      (run { initState with reconnectAttempts := 5 } [SysEv.closeEv 1]).nextHandle
        = ({ initState with reconnectAttempts := 5 } : SysState).nextHandle) :=
  ⟨c4_reconnect_bounded.1 [SysEv.closeEv 0],
    c4_reconnect_bounded.2.2.1 { initState with reconnectAttempts := 5 } 0 rfl,
    c4_reconnect_bounded.2.2.2 { initState with reconnectAttempts := 5 }
      [SysEv.closeEv 1] rfl rfl (by simp)⟩

/-! ## Claim C5 -/

/-- C5: every open event resets the reconnect counter to 0 and emits a
`connected` event (delivered to the callbacks then subscribed under
`connected`); a close event arriving after that successful open therefore
restarts the backoff from attempt 1, scheduling the next reconnect with
delay `reconnectDelay * 1 = 1000`. -/
theorem c5_open_resets_backoff (s : SysState) (h : Nat) :
    (step s .openEv).reconnectAttempts = 0 ∧
    (step s .openEv).emitLog
      = s.emitLog ++ [("connected", (s.listeners "connected").getD [])] ∧
    (step (step s .openEv) (.closeEv h)).reconnectAttempts = 1 ∧
    (step (step s .openEv) (.closeEv h)).pendingDelays
      = (step s .openEv).pendingDelays ++ [reconnectDelay * 1] := by
  refine ⟨rfl, ?_, ?_, ?_⟩
  · show (svcEmit "connected" { s with reconnectAttempts := 0 }).emitLog = _
    rw [svcEmit_emitLog]
  · exact step_closeEv_attempts_lt (step s .openEv) h
      (show (0 : Nat) < maxReconnectAttempts by decide)
  · exact step_closeEv_pendingDelays_lt (step s .openEv) h
      (show (0 : Nat) < maxReconnectAttempts by decide)

/-! ## Claim C6 -/

/-- C6 counterexample: from the initial state (counter 0), the first close
event — the 1st consecutive reconnect — schedules delay 1000, not
`1000 * (1 - 1) = 0` as the claim's "k-th delay equals 1000 * (k-1)"
asserts: the code increments the counter BEFORE computing the delay. -/
theorem c6_counterexample :
    (run initState [SysEv.callConnect true, SysEv.closeEv 0]).pendingDelays
        = [1000] ∧
    (run initState [SysEv.callConnect true, SysEv.closeEv 0]).pendingDelays
        ≠ [reconnectDelay * (1 - 1)] :=
  ⟨rfl, by decide⟩

/-- C6 amended: while `attempts < maxAttempts` (5), `attemptReconnect`
first increments the counter and then schedules the reconnect after
`baseDelay * attempts` computed from the ALREADY incremented counter; at or
above the cap it does nothing.  Hence for every k-th consecutive reconnect
(k ≤ 5) the scheduled delay equals `1000 * k`, not `1000 * (k - 1)`. -/
theorem c6_amended_delay_after_increment (s : SysState) (k : Nat) :
    (s.reconnectAttempts < maxReconnectAttempts →
      attemptReconnect s
        = { s with reconnectAttempts := s.reconnectAttempts + 1
                   pendingDelays := s.pendingDelays
                     ++ [reconnectDelay * (s.reconnectAttempts + 1)] }) ∧
    (maxReconnectAttempts ≤ s.reconnectAttempts → attemptReconnect s = s) ∧
    (k ≤ maxReconnectAttempts →
      (run initState (List.replicate k (SysEv.closeEv 0))).reconnectAttempts = k ∧
      (run initState (List.replicate k (SysEv.closeEv 0))).pendingDelays
        = (List.range k).map (fun i => reconnectDelay * (i + 1))) := by
  refine ⟨attemptReconnect_lt s, attemptReconnect_ge s, ?_⟩
  induction k with
  | zero => intro _; exact ⟨rfl, rfl⟩
  | succ k ih =>
      intro hk
      obtain ⟨ha, hp⟩ := ih (by omega)
      have hlt : (run initState (List.replicate k (SysEv.closeEv 0))).reconnectAttempts
          < maxReconnectAttempts := by rw [ha]; omega
      have hstep : run initState (List.replicate (k + 1) (SysEv.closeEv 0))
          = step (run initState (List.replicate k (SysEv.closeEv 0))) (SysEv.closeEv 0) := by
        rw [List.replicate_succ', run_append]
        rfl
      constructor
      · rw [hstep, step_closeEv_attempts_lt _ _ hlt, ha]
      · rw [hstep, step_closeEv_pendingDelays_lt _ _ hlt, hp, ha, List.range_succ]
        simp

/-- Witness for C6's amended theorem: both branches of the policy and the
consecutive-delay law at concrete inputs. -/
theorem c6_amended_witness :
    attemptReconnect initState
      = { initState with
            reconnectAttempts := initState.reconnectAttempts + 1
            pendingDelays := initState.pendingDelays
              ++ [reconnectDelay * (initState.reconnectAttempts + 1)] } ∧
    attemptReconnect { initState with reconnectAttempts := 5 }
      = { initState with reconnectAttempts := 5 } ∧
    ((run initState (List.replicate 2 (SysEv.closeEv 0))).reconnectAttempts = 2 ∧
      (run initState (List.replicate 2 (SysEv.closeEv 0))).pendingDelays
        = (List.range 2).map (fun i => reconnectDelay * (i + 1))) :=
  ⟨(c6_amended_delay_after_increment initState 0).1 (by decide),
    (c6_amended_delay_after_increment { initState with reconnectAttempts := 5 } 0).2.1
      (by decide),
    (c6_amended_delay_after_increment initState 2).2.2 (by decide)⟩

/-! ## Claim C7 -/

/-- C7: `send(message)` with no transport handle, or with a handle whose
`readyState` is not `OPEN`, is a complete no-op: the whole system state —
subscription table, reconnect state, handle, sent-frame log (no buffering)
— is returned unchanged, and the function is total (throws nothing). -/
theorem c7_send_noop (s : SysState) (msg : Nat) (isOpen : Bool)
    (h : s.ws = none ∨ isOpen = false) :
    step s (.callSend msg isOpen) = s := by
  show svcSend msg isOpen s = s
  unfold svcSend
  rcases h with h | h
  · rw [h]
  · cases hw : s.ws
    · rfl
    · rw [h]
      rfl

/-- Witness for C7 at a concrete state. -/
theorem c7_send_noop_witness :
    initState.ws = none ∧ step initState (.callSend 7 false) = initState :=
  ⟨rfl, c7_send_noop initState 7 false (Or.inl rfl)⟩

/-! ## Claim C9 -/

/-- C9 evaluation at the failing input: two successive successful
`connect()` calls.  The code assigns `this.ws = new WebSocket(wsUrl)`
without closing or releasing the previous handle, so after the second call
BOTH handles 0 and 1 are live — the claimed "at most one live handle"
invariant does not hold, although the spec states it as the intended
design (and itself flags the missing close as a latent defect). -/
theorem c9_two_live_handles :
    (run initState [SysEv.callConnect true, SysEv.callConnect true]).liveHandles
        = [0, 1] ∧
    (run initState [SysEv.callConnect true, SysEv.callConnect true]).ws = some 1 :=
  ⟨rfl, rfl⟩

end BootstrapAI
